import Mathlib

/-!
Shallow embedding of the DCA entry Discord bot's point-in-time scoring engine,
walk-forward backtest, results analyzer and configuration resolver
(backtest.py, core/backtest.py, core/config.py). Prices, weights and scores
are modelled as rationals. External collaborators that the repository imports
but does not define (the six per-indicator normalization functions, the RSI
computation, the IEEE square root used by the pandas rolling std, the JSON
decoder, market-data retrieval) are abstract parameters, mirroring how the
specification scopes them out.
-/

/-- Round-half-to-even of a rational to an integer, as Python's builtin
`round` ties-to-even policy (the model is exact arithmetic, so binary-float
representation artifacts of CPython are out of scope). -/
def roundHalfEven (x : ℚ) : ℤ :=
  if x - ⌊x⌋ < 1/2 then ⌊x⌋
  else if 1/2 < x - ⌊x⌋ then ⌊x⌋ + 1
  else if ⌊x⌋ % 2 = 0 then ⌊x⌋ else ⌊x⌋ + 1

/-- Python `round(x, d)`: round half to even at `d` decimal places. -/
def pyRound (d : ℕ) (x : ℚ) : ℚ := (roundHalfEven (x * 10 ^ d) : ℚ) / 10 ^ d

/-- Arithmetic mean of a list (pandas `.mean()` over a nonempty window). -/
def listMean (xs : List ℚ) : ℚ := xs.sum / xs.length

/-- Maximum of a list (pandas rolling `.max()` over a nonempty window). -/
def listMax (xs : List ℚ) : ℚ := xs.foldl max (xs.headD 0)

/-- The last `n` entries of a list: the rolling window of width `n`
(`min_periods=1`) ending at the last row. -/
def lastN (n : ℕ) (xs : List ℚ) : List ℚ := xs.drop (xs.length - n)

/-- Sample variance with `ddof = 1` (the square of the pandas `.std()`). -/
def sampleVar (xs : List ℚ) : ℚ :=
  (xs.map (fun x => (x - listMean xs) ^ 2)).sum / ((xs.length : ℚ) - 1)

/-- Day-over-day fractional changes: pandas `Close.pct_change()` with its
leading NaN entry dropped, so entry `j` is `(close[j+1] - close[j]) / close[j]`. -/
def pctChanges (xs : List ℚ) : List ℚ :=
  (xs.zip xs.tail).map (fun p => (p.2 - p.1) / p.1)

/-- Python `range(start, stop, step)` for a positive step. -/
def pyRange (start stop step : ℕ) : List ℕ :=
  List.range' start ((stop - start + step - 1) / step) step

/-- `np.searchsorted` (left) insertion point of `t` in a sorted timestamp
index: the number of entries strictly below `t`. -/
def searchsorted (dates : List ℤ) (t : ℤ) : ℕ :=
  dates.countP (fun d => decide (d < t))

/-- One price bar of the series: a timestamp and a closing price
(`df.index` entries and the `Close` column after `dropna`). -/
structure Bar where
  date : ℤ
  close : ℚ
deriving DecidableEq

/-- The external collaborators of the scoring engine: `compute_rsi` and the
six `score_*` normalization functions imported from `bot_daily_score`, plus
the square root applied by the pandas rolling `.std()`. `compute_rsi`
returns `none` where the float code yields NaN for the latest row. -/
structure Externals where
  compute_rsi : List ℚ → ℕ → Option ℚ
  sqrtQ : ℚ → ℚ
  score_drawdown : ℚ → ℚ → ℚ
  score_rsi : ℚ → ℚ
  score_dist_ma50 : ℚ → ℚ → ℚ
  score_momentum : ℚ → ℚ
  score_trend_ma200 : ℚ → ℚ → ℚ
  score_volatility : ℚ → ℚ → ℚ

/-- The six composite weights of `cfg["weights"]`. -/
structure Weights where
  drawdown90 : ℚ
  rsi14 : ℚ
  dist_ma50 : ℚ
  momentum30 : ℚ
  trend_ma200 : ℚ
  volatility20 : ℚ
deriving DecidableEq

/-- The scoring-relevant part of the effective configuration. -/
structure ScoreCfg where
  weights : Weights
  drawdown_cap : ℚ
  volatility_cap : ℚ
deriving DecidableEq

/-- A Score Snapshot as returned by `compute_score_at_date`. -/
structure Snapshot where
  date : ℤ
  score : ℚ
  close : ℚ
  rsi14 : ℚ
  ma50 : ℚ
  ma200 : ℚ
deriving DecidableEq

/-- `MA50` at the last row: rolling 50-period mean with `min_periods=1`. -/
def ma50Of (closes : List ℚ) : ℚ := listMean (lastN 50 closes)

/-- `MA200` at the last row: rolling 200-period mean with `min_periods=1`. -/
def ma200Of (closes : List ℚ) : ℚ := listMean (lastN 200 closes)

/-- `RSI14` at the last row with the NaN-substitution `RSI -> 50.0`. -/
def rsi14Of (ext : Externals) (closes : List ℚ) : ℚ :=
  (ext.compute_rsi closes 14).getD 50

/-- `High90` at the last row: rolling 90-period max with `min_periods=1`. -/
def high90Of (closes : List ℚ) : ℚ := listMax (lastN 90 closes)

/-- `Drawdown90 = (High90 - Close) / High90` at the last row. When the
rolling peak is `0` the float code yields a non-finite value (NaN when the
close is also `0`, substituted by the neutral default `0.0`); the rational
model returns the neutral `0` for that whole degenerate corner and is exact
whenever the peak is nonzero. -/
def drawdown90Of (closes : List ℚ) : ℚ :=
  if high90Of closes = 0 then 0
  else (high90Of closes - closes.getLastD 0) / high90Of closes

/-- `Vol20` at the last row: rolling 20-period sample std of the day-over-day
percentage changes; NaN (fewer than two changes in the window) is substituted
by the neutral default `0.0`. -/
def vol20Of (ext : Externals) (closes : List ℚ) : ℚ :=
  if (lastN 20 (pctChanges closes)).length < 2 then 0
  else ext.sqrtQ (sampleVar (lastN 20 (pctChanges closes)))

/-- `Momentum30` at the last row: `pct_change(periods=30)`; NaN (no close 30
rows earlier) is substituted by the neutral default `0.0`. -/
def momentum30Of (closes : List ℚ) : ℚ :=
  if closes.length ≤ 30 then 0
  else (closes.getLastD 0 - closes.getD (closes.length - 31) 0) /
    closes.getD (closes.length - 31) 0

/-- The weighted composite of the six sub-scores, exactly the sum of
`w[k] * score_k(...)` terms of `compute_score_at_date`. -/
def compositeOf (ext : Externals) (cfg : ScoreCfg) (closes : List ℚ) : ℚ :=
  cfg.weights.drawdown90 * ext.score_drawdown (drawdown90Of closes) cfg.drawdown_cap +
  cfg.weights.rsi14 * ext.score_rsi (rsi14Of ext closes) +
  cfg.weights.dist_ma50 * ext.score_dist_ma50 (closes.getLastD 0) (ma50Of closes) +
  cfg.weights.momentum30 * ext.score_momentum (momentum30Of closes) +
  cfg.weights.trend_ma200 * ext.score_trend_ma200 (closes.getLastD 0) (ma200Of closes) +
  cfg.weights.volatility20 * ext.score_volatility (vol20Of ext closes) cfg.volatility_cap

/-- The body of `compute_score_at_date` acting on the already-truncated
series `historical_data = df.iloc[:date_idx+1]`: reject when fewer than 200
rows are available, otherwise assemble the Score Snapshot of the last row. -/
def scoreOfHistorical (ext : Externals) (cfg : ScoreCfg) (historical : List Bar) :
    Option Snapshot :=
  if historical.length < 200 then none
  else
    some {
      date := (historical.getLastD ⟨0, 0⟩).date
      score := pyRound 1 (100 * compositeOf ext cfg (historical.map Bar.close))
      close := (historical.map Bar.close).getLastD 0
      rsi14 := pyRound 2 (rsi14Of ext (historical.map Bar.close))
      ma50 := ma50Of (historical.map Bar.close)
      ma200 := ma200Of (historical.map Bar.close) }

/-- `compute_score_at_date(df, date_idx, cfg)` from backtest.py: truncate the
series to rows `0..date_idx` and score the truncation. -/
def compute_score_at_date (ext : Externals) (df : List Bar) (dateIdx : ℕ)
    (cfg : ScoreCfg) : Option Snapshot :=
  scoreOfHistorical ext cfg (df.take (dateIdx + 1))

/-- Test fixture: externals whose six normalization functions are constant
`1` (each inside the contracted range `[0,1]`), with an always-NaN RSI. -/
def extW : Externals :=
  { compute_rsi := fun _ _ => none
    sqrtQ := fun x => x
    score_drawdown := fun _ _ => 1
    score_rsi := fun _ => 1
    score_dist_ma50 := fun _ _ => 1
    score_momentum := fun _ => 1
    score_trend_ma200 := fun _ _ => 1
    score_volatility := fun _ _ => 1 }

/-- Test fixture: externals whose six normalization functions are constant
`1/2`, with an always-NaN RSI. -/
def extHalf : Externals :=
  { compute_rsi := fun _ _ => none
    sqrtQ := fun x => x
    score_drawdown := fun _ _ => 1/2
    score_rsi := fun _ => 1/2
    score_dist_ma50 := fun _ _ => 1/2
    score_momentum := fun _ => 1/2
    score_trend_ma200 := fun _ _ => 1/2
    score_volatility := fun _ _ => 1/2 }

/-- Test fixture: the compiled-in default weights and caps. -/
def cfgW : ScoreCfg := ⟨⟨1/4, 1/4, 1/5, 3/20, 1/10, 1/20⟩, 1/4, 1/10⟩

/-- Test fixture: a user-supplied configuration whose weights do not sum
to at most `1` (drawdown weight `2`, the rest `0`). -/
def cfgBad : ScoreCfg := ⟨⟨2, 0, 0, 0, 0, 0⟩, 1/4, 1/10⟩

/-- Test fixture: 200 daily bars at constant close `1`. -/
def dfW200 : List Bar := (List.range 200).map (fun (j : ℕ) => Bar.mk (j : ℤ) 1)

/-- Test fixture: three sorted daily bars. -/
def dfW3 : List Bar := [⟨0, 1⟩, ⟨1, 2⟩, ⟨2, 3⟩]

/-- A Backtest Result Record: the Score Snapshot dict extended in place
with the realized 30-day forward return. -/
structure BtRecord where
  snap : Snapshot
  return30d : ℚ
deriving DecidableEq

/-- Closing price at positional index `i` of the series (`df.iloc[i]["Close"]`). -/
def closeAt (df : List Bar) (i : ℕ) : ℚ := (df.getD i ⟨0, 0⟩).close

/-- The walk-forward loop shared by `backtest_ticker` (backtest.py, fixed
interval 7) and `BacktestEngine.run_backtest` (core/backtest.py): iterate
`range(test_start_idx, len(df), interval_days)` where `test_start_idx` is
the searchsorted insertion point of the start timestamp; at each `i` invoke
the Score Assembler, and append a record exactly when a snapshot was
produced and `i + 30 < len(df)`, the record carrying
`return_30d = round((close[i+30] - close[i]) / close[i] * 100, 2)`. -/
def backtest_records (ext : Externals) (cfg : ScoreCfg) (df : List Bar)
    (startTs : ℤ) (intervalDays : ℕ) : List BtRecord :=
  (pyRange (searchsorted (df.map Bar.date) startTs) df.length intervalDays).filterMap
    (fun i =>
      match compute_score_at_date ext df i cfg with
      | none => none
      | some s =>
        if i + 30 < df.length then
          some ⟨s, pyRound 2 ((closeAt df (i + 30) - closeAt df i) / closeAt df i * 100)⟩
        else none)

/-- `BacktestEngine.run_backtest` (core/backtest.py) around the walk-forward
loop: the `fetch` collaborator models `yf.download` followed by the
multi-index flattening and `dropna`, returning `none` both for a download
exception and for an empty result; in those cases the engine returns `None`,
otherwise the loop's records. -/
def run_backtest (ext : Externals) (cfg : ScoreCfg) (fetch : String → Option (List Bar))
    (ticker : String) (startTs : ℤ) (intervalDays : ℕ) : Option (List BtRecord) :=
  (fetch ticker).map (fun df => backtest_records ext cfg df startTs intervalDays)

/-- A backtest record tagged with its ticker (`results["ticker"] = ticker`). -/
structure TaggedRecord where
  ticker : String
  record : BtRecord
deriving DecidableEq

/-- `BacktestEngine.run_multi_ticker_backtest` (core/backtest.py): run each
ticker independently; a ticker whose run returned `None` or an empty record
set is skipped (with a logged warning); the rest are tagged and concatenated
in order into the combined record set. -/
def run_multi_ticker_backtest (ext : Externals) (cfg : ScoreCfg)
    (fetch : String → Option (List Bar)) (tickers : List String)
    (startTs : ℤ) (intervalDays : ℕ) : List TaggedRecord :=
  tickers.foldl (fun acc t =>
    match run_backtest ext cfg fetch t startTs intervalDays with
    | none => acc
    | some recs => if recs.isEmpty then acc else acc ++ recs.map (fun r => ⟨t, r⟩)) []

/-- Test fixture: a retrieval collaborator that fails for ticker `A` and
returns the three-bar series otherwise. -/
def fetchW : String → Option (List Bar) :=
  fun s => if s = "A" then none else some dfW3

/-- The analyzer's three score categories. -/
inductive Band where
  | unfavorable
  | neutral
  | favorable
deriving DecidableEq

/-- An analyzer input record: a composite score paired with its realized
30-day return (the `score` and `return_30d` columns). -/
structure ARec where
  score : ℚ
  return30d : ℚ
deriving DecidableEq

/-- The band assignment performed by
`pd.cut(score, bins=[0, 45, 55, 100], labels=[...])` in `analyze_results`:
right-closed intervals `(0,45]`, `(45,55]`, `(55,100]`, with values at or
below the lowest edge `0` and values above `100` left uncategorized (NaN). -/
def scoreBand (s : ℚ) : Option Band :=
  if 0 < s ∧ s ≤ 45 then some .unfavorable
  else if 45 < s ∧ s ≤ 55 then some .neutral
  else if 55 < s ∧ s ≤ 100 then some .favorable
  else none

/-- The records grouped into one band by `groupby("score_category")`
(records whose score falls in no bin belong to no group). -/
def bandRecords (rs : List ARec) (b : Band) : List ARec :=
  rs.filter (fun r => decide (scoreBand r.score = some b))

/-- The `return_30d` values aggregated for one band. -/
def bandReturns (rs : List ARec) (b : Band) : List ℚ :=
  (bandRecords rs b).map ARec.return30d

/-- Insertion into a sorted list (helper of the median computation). -/
def insertSorted (x : ℚ) : List ℚ → List ℚ
  | [] => [x]
  | y :: t => if x ≤ y then x :: y :: t else y :: insertSorted x t

/-- Sort a list of rationals ascending. -/
def sortQ (xs : List ℚ) : List ℚ := xs.foldr insertSorted []

/-- Pandas `mean` aggregation: NaN (absent) on an empty group. -/
def aggMean (xs : List ℚ) : Option ℚ :=
  if xs.isEmpty then none else some (listMean xs)

/-- Pandas `median` aggregation: middle element (or midpoint of the two
middle elements) of the sorted values; NaN (absent) on an empty group. -/
def aggMedian (xs : List ℚ) : Option ℚ :=
  if xs.isEmpty then none
  else
    let s := sortQ xs
    if s.length % 2 = 1 then some (s.getD (s.length / 2) 0)
    else some ((s.getD (s.length / 2 - 1) 0 + s.getD (s.length / 2) 0) / 2)

/-- Pandas `std` aggregation (`ddof=1`): NaN (absent) on a group with
fewer than two values; `sq` is the external square root. -/
def aggStd (sq : ℚ → ℚ) (xs : List ℚ) : Option ℚ :=
  if xs.length < 2 then none else some (sq (sampleVar xs))

/-- The per-band row of `grouped = ....agg(["mean", "median", "count", "std"])`. -/
structure BandStats where
  count : ℕ
  mean : Option ℚ
  median : Option ℚ
  std : Option ℚ
deriving DecidableEq

/-- The aggregate statistics of one band in `analyze_results`. -/
def bandStatsOf (sq : ℚ → ℚ) (rs : List ARec) (b : Band) : BandStats :=
  { count := (bandReturns rs b).length
    mean := aggMean (bandReturns rs b)
    median := aggMedian (bandReturns rs b)
    std := aggStd sq (bandReturns rs b) }

/-- The favorable detail breakdown `results_df[results_df["score"] > 55]`. -/
def favorableRecords (rs : List ARec) : List ARec :=
  rs.filter (fun r => decide (55 < r.score))

/-- The unfavorable detail breakdown `results_df[results_df["score"] < 45]`. -/
def unfavorableRecords (rs : List ARec) : List ARec :=
  rs.filter (fun r => decide (r.score < 45))

/-- A Python/JSON-like configuration value. Mappings are insertion-ordered
association lists, as Python dicts. -/
inductive CVal where
  | num : ℚ → CVal
  | str : String → CVal
  | bool : Bool → CVal
  | null : CVal
  | arr : List CVal → CVal
  | obj : List (String × CVal) → CVal

/-- A configuration mapping: an insertion-ordered Python dict. -/
abbrev Obj := List (String × CVal)

/-- Dict lookup `c[k]` / `k in c`. -/
def objFind (c : Obj) (k : String) : Option CVal :=
  (c.find? (fun kv => decide (kv.1 = k))).map (fun kv => kv.2)

/-- Dict assignment `c[k] = v`: replace in place when the key exists,
append otherwise. -/
def objSet (c : Obj) (k : String) (v : CVal) : Obj :=
  if (c.find? (fun kv => decide (kv.1 = k))).isSome then
    c.map (fun kv => if kv.1 = k then (k, v) else kv)
  else c ++ [(k, v)]

/-- Python `dict.setdefault(k, v)`. -/
def objSetdefault (c : Obj) (k : String) (v : CVal) : Obj :=
  if (objFind c k).isSome then c else c ++ [(k, v)]

/-- The dotted-path walk of `get_config_value`: descend one mapping per
part, answering `none` (the caller's default) when a part is missing or a
non-mapping is reached. -/
def getPath : CVal → List String → Option CVal
  | v, [] => some v
  | v, p :: rest =>
    match v with
    | .obj kvs =>
      match objFind kvs p with
      | some w => getPath w rest
      | none => none
    | _ => none

/-- The dotted-path nested assignment of `get_config`: walk `parts[:-1]`,
creating `{}` for missing intermediates, then assign the final part.
Answers `none` where the Python walk raises a `TypeError` (an intermediate
exists but is not a mapping). -/
def setPath (c : Obj) : List String → CVal → Option Obj
  | [], _ => none
  | [p], v => some (objSet c p v)
  | p :: q :: rest, v =>
    match objFind c p with
    | none => (setPath [] (q :: rest) v).map (fun sub => objSet c p (.obj sub))
    | some (.obj sub) => (setPath sub (q :: rest) v).map (fun sub2 => objSet c p (.obj sub2))
    | some _ => none

/-- Every proper prefix of the dotted path is absent or a nested mapping:
exactly the condition under which the Python nested-assignment walk cannot
raise a `TypeError`. -/
def prefixesOk : Obj → List String → Bool
  | _, [] => true
  | c, p :: rest =>
    match objFind c p with
    | none => true
    | some (.obj sub) => prefixesOk sub rest
    | some _ => false

/-- Split a character list at every occurrence of the separator
(Python `str.split` semantics: `[] ↦ [[]]`). -/
def splitOnChar (c : Char) : List Char → List (List Char)
  | [] => [[]]
  | x :: xs =>
    let r := splitOnChar c xs
    if x = c then [] :: r
    else
      match r with
      | [] => [[x]]
      | h :: t => (x :: h) :: t

/-- Python `key.split(".")`. -/
def keyParts (k : String) : List String :=
  (splitOnChar '.' k.toList).map String.mk

/-- Python `"." in key`. -/
def keyHasDot (k : String) : Bool := k.toList.contains '.'

/-- A value as stored in the `config` table: `set_config_value` JSON-encodes
every non-string value (so decoding it on read returns that value, the
stdlib `json.loads ∘ json.dumps` round trip), while strings are stored
verbatim and their decoding is attempted on read. -/
inductive StoredVal where
  | enc : CVal → StoredVal
  | rawStr : String → StoredVal

/-- Application of one successfully decoded override value: dotted keys are
merged at the nested path, others assigned flat. -/
def applyDecoded (cfg : Obj) (key : String) (v : CVal) : Option Obj :=
  if keyHasDot key then setPath cfg (keyParts key) v
  else some (objSet cfg key v)

/-- Application of one `config`-table row inside `get_config`: try JSON
decoding (`jdec` models `json.loads` on raw strings); on success merge the
decoded value (nested for dotted keys), on `JSONDecodeError` keep the raw
string under the flat key. `none` models the uncaught `TypeError` of the
nested walk. -/
def apply_override (jdec : String → Option CVal) (cfg : Obj) (key : String)
    (sv : StoredVal) : Option Obj :=
  match sv with
  | .enc v => applyDecoded cfg key v
  | .rawStr s =>
    match jdec s with
    | some v => applyDecoded cfg key v
    | none => some (objSet cfg key (.str s))

/-- Sequential application of the `config`-table rows; the `Bool` is `true`
when a row raised, which aborts the remaining rows (and, in `get_config`,
the formulas and tickers sections) leaving the configuration as mutated so
far. -/
def apply_overrides (jdec : String → Option CVal) :
    Obj → List (String × StoredVal) → Obj × Bool
  | cfg, [] => (cfg, false)
  | cfg, r :: rest =>
    match apply_override jdec cfg r.1 r.2 with
    | some c => apply_overrides jdec c rest
    | none => (cfg, true)

/-- The persistent store as read by `get_config`: the `config` rows in
`SELECT` order, the custom formulas `(name, formula, weight)`, and the
enabled ticker symbols. -/
structure DbState where
  configRows : List (String × StoredVal)
  formulas : List (String × String × ℚ)
  tickers : List String

/-- The nine scalar `config.setdefault(...)` calls of `get_config`,
in program order. -/
def defaultScalars : List (String × CVal) :=
  [("data_period", .str "365d"),
   ("drawdown_cap", .num (1/4)),
   ("volatility_cap", .num (1/10)),
   ("output_csv", .str "/data/scores_history.csv"),
   ("log_file", .str "/data/bot_daily_score.log"),
   ("timezone", .str "Europe/Paris"),
   ("dev_mode", .bool false),
   ("schedule_hour", .num 22),
   ("schedule_minute", .num 10)]

/-- The six `config["weights"].setdefault(...)` calls, in program order. -/
def defaultWeightsList : List (String × CVal) :=
  [("drawdown90", .num (1/4)),
   ("rsi14", .num (1/4)),
   ("dist_ma50", .num (1/5)),
   ("momentum30", .num (3/20)),
   ("trend_ma200", .num (1/10)),
   ("volatility20", .num (1/20))]

/-- The defaults-over-YAML part of `get_config`: scalar `setdefault`s, then
`config["weights"] = {}` when absent, then the six weight `setdefault`s.
`none` models the uncaught `AttributeError` when the static file carries a
non-mapping under `weights`. -/
def baseConfig (yaml : Obj) : Option Obj :=
  let c := defaultScalars.foldl (fun acc kv => objSetdefault acc kv.1 kv.2) yaml
  let c := if (objFind c "weights").isSome then c else c ++ [("weights", .obj [])]
  match objFind c "weights" with
  | some (.obj w) =>
    some (objSet c "weights"
      (.obj (defaultWeightsList.foldl (fun acc kv => objSetdefault acc kv.1 kv.2) w)))
  | _ => none

/-- The formulas section of `get_config`: when any formula rows exist,
expose them under the separate `formulas` / `formula_weights` keys. -/
def applyFormulas (cfg : Obj) (fs : List (String × String × ℚ)) : Obj :=
  if fs.isEmpty then cfg
  else
    objSet (objSet cfg "formulas" (.obj (fs.map (fun f => (f.1, CVal.str f.2.1)))))
      "formula_weights" (.obj (fs.map (fun f => (f.1, CVal.num f.2.2))))

/-- The tickers section of `get_config`: a nonempty enabled-ticker list
entirely replaces the file-derived list. -/
def applyTickers (cfg : Obj) (ts : List String) : Obj :=
  if ts.isEmpty then cfg else objSet cfg "tickers" (.arr (ts.map CVal.str))

/-- `ConfigManager.get_config` (core/config.py): YAML base (`yaml` is the
parsed static file, `[]` when missing or unparsable), compiled-in defaults,
then the DB section guarded by `try/except`: `db = none` models a store
access failure on connection/first query (no overrides at all); a row-level
`TypeError` mid-way keeps the rows already applied and skips the formulas
and tickers sections. The outer `Option` is the `AttributeError` of
`baseConfig`, the only uncaught exception path. -/
def get_config (jdec : String → Option CVal) (yaml : Obj) (db : Option DbState) :
    Option Obj :=
  (baseConfig yaml).map (fun base =>
    match db with
    | none => base
    | some s =>
      match apply_overrides jdec base s.configRows with
      | (c, true) => c
      | (c, false) => applyTickers (applyFormulas c s.formulas) s.tickers)

/-- `ConfigManager.get_config_value` (core/config.py): resolve the full
configuration, then walk dotted keys part by part, or `config.get(key)`
for plain keys; `none` is the caller's default. -/
def get_config_value (jdec : String → Option CVal) (yaml : Obj) (db : Option DbState)
    (key : String) : Option CVal :=
  (get_config jdec yaml db).bind (fun c =>
    if keyHasDot key then getPath (.obj c) (keyParts key) else objFind c key)

/-- `ConfigManager.set_config_value` (core/config.py): JSON-encode non-string
values, store strings verbatim; `INSERT OR REPLACE` keyed on `key` (the
replaced row reappears at the end in rowid order). -/
def set_config_value (rows : List (String × StoredVal)) (key : String) (v : CVal) :
    List (String × StoredVal) :=
  let sv : StoredVal :=
    match v with
    | .str s => .rawStr s
    | _ => .enc v
  rows.filter (fun r => decide (r.1 ≠ key)) ++ [(key, sv)]

/-- Test fixture: a JSON decoder on which every string fails to decode. -/
def jdecNone : String → Option CVal := fun _ => none

/-- Test fixture: a store whose second `config` row hits a `TypeError`
(it writes below the non-mapping created by the first row). -/
def dbFailTail : DbState :=
  ⟨[("x", .enc (.num 1)), ("x.y", .enc (.num 2))], [], []⟩

/-- A row of the `weight_profiles` table (timestamps are external). -/
structure Profile where
  id : ℕ
  name : String
  descr : String
  isActive : Bool
deriving DecidableEq

/-- A row of the `formulas` table (description and timestamp external). -/
structure Formula where
  name : String
  formula : String
  weight : ℚ
deriving DecidableEq

/-- The profile-related tables of the persistent store. -/
structure ProfileDb where
  profiles : List Profile
  profileWeights : List (ℕ × String × ℚ)
  formulas : List Formula
deriving DecidableEq

/-- `ConfigManager.set_active_profile` (core/config.py): set `is_active = 0`
on every profile, then `is_active = 1` where `id = profile_id`; then for
each `profile_weights` row of that profile, `UPDATE formulas SET weight`
where the formula name matches. -/
def set_active_profile (db : ProfileDb) (pid : ℕ) : ProfileDb :=
  { profiles := (db.profiles.map (fun p => { p with isActive := false })).map
      (fun p => if p.id = pid then { p with isActive := true } else p)
    profileWeights := db.profileWeights
    formulas := (db.profileWeights.filter (fun r => decide (r.1 = pid))).foldl
      (fun fs r => fs.map (fun f => if f.name = r.2.1 then { f with weight := r.2.2 } else f))
      db.formulas }

/-- Test fixture: two profiles, two profile-weight rows, two formulas. -/
def dbProf : ProfileDb :=
  { profiles := [⟨1, "a", "", false⟩, ⟨2, "b", "", true⟩]
    profileWeights := [(1, "rsi", 1), (2, "rsi", 3)]
    formulas := [⟨"rsi", "f", 0⟩, ⟨"mom", "g", 7⟩] }

/-- Claim C1 (no-lookahead): for every index `i` and every pair of price
series whose rows `0..i` are equal, `compute_score_at_date` at index `i`
with the same configuration and the same external collaborators returns
identical Score Snapshots — the snapshot is a pure function of rows `0..i`
only and never depends on rows after `i`. -/
theorem c1_no_lookahead (ext : Externals) (cfg : ScoreCfg) (df₁ df₂ : List Bar)
    (i : ℕ) (h : df₁.take (i + 1) = df₂.take (i + 1)) :
    compute_score_at_date ext df₁ i cfg = compute_score_at_date ext df₂ i cfg := by
  unfold compute_score_at_date
  rw [h]

/-- Witness for C1 at a concrete input: a three-bar series and its
extension by a fourth bar agree on rows `0..2`, and the snapshots at
index `2` coincide. -/
theorem c1_no_lookahead_witness :
    dfW3.take (2 + 1) = (dfW3 ++ [Bar.mk 9 5]).take (2 + 1) ∧
    compute_score_at_date extW dfW3 2 cfgW =
      compute_score_at_date extW (dfW3 ++ [Bar.mk 9 5]) 2 cfgW :=
  ⟨rfl, c1_no_lookahead extW cfgW dfW3 (dfW3 ++ [Bar.mk 9 5]) 2 rfl⟩

/-- Claim C2 (Score Assembler contract): `compute_score_at_date` returns
`none` exactly when fewer than 200 rows exist up to and including index `i`
(never a zero-score snapshot); otherwise the snapshot's score equals
`round(100 * Σ_k weight_k * subscore_k, 1)` over the six named weights, the
sub-scores being the six external normalization functions applied to the
indicators of the truncated series, with the neutral default `50.0`
substituted for an uncomputable RSI (the defaults `0.0` for drawdown,
volatility and momentum are the degenerate branches of `drawdown90Of`,
`vol20Of` and `momentum30Of`). -/
theorem c2_score_assembler (ext : Externals) (df : List Bar) (i : ℕ) (cfg : ScoreCfg) :
    (compute_score_at_date ext df i cfg = none ↔ min (i + 1) df.length < 200) ∧
    (∀ s, compute_score_at_date ext df i cfg = some s →
      s.score = pyRound 1 (100 * (
        cfg.weights.drawdown90 *
          ext.score_drawdown (drawdown90Of ((df.take (i + 1)).map Bar.close)) cfg.drawdown_cap +
        cfg.weights.rsi14 *
          ext.score_rsi ((ext.compute_rsi ((df.take (i + 1)).map Bar.close) 14).getD 50) +
        cfg.weights.dist_ma50 *
          ext.score_dist_ma50 (((df.take (i + 1)).map Bar.close).getLastD 0)
            (ma50Of ((df.take (i + 1)).map Bar.close)) +
        cfg.weights.momentum30 *
          ext.score_momentum (momentum30Of ((df.take (i + 1)).map Bar.close)) +
        cfg.weights.trend_ma200 *
          ext.score_trend_ma200 (((df.take (i + 1)).map Bar.close).getLastD 0)
            (ma200Of ((df.take (i + 1)).map Bar.close)) +
        cfg.weights.volatility20 *
          ext.score_volatility (vol20Of ext ((df.take (i + 1)).map Bar.close)) cfg.volatility_cap)) ∧
      s.rsi14 = pyRound 2 ((ext.compute_rsi ((df.take (i + 1)).map Bar.close) 14).getD 50)) := by
  constructor
  · unfold compute_score_at_date scoreOfHistorical
    simp only [List.length_take]
    split_ifs with h
    · simpa using h
    · simpa using h
  · intro s hs
    unfold compute_score_at_date scoreOfHistorical at hs
    split at hs
    · exact Option.noConfusion hs
    · obtain rfl := (Option.some.inj hs).symm
      exact ⟨rfl, rfl⟩

/-- Witness for C2 at a concrete input: the empty series has
`min (0+1) 0 = 0 < 200` rows up to index `0`, so no snapshot is emitted. -/
theorem c2_score_assembler_witness :
    compute_score_at_date extW [] 0 cfgW = none :=
  (c2_score_assembler extW [] 0 cfgW).1.mpr (by decide)

/-- `roundHalfEven` never drops below an integer lower bound. -/
theorem le_roundHalfEven_of_le (x : ℚ) (n : ℤ) (h : (n : ℚ) ≤ x) :
    n ≤ roundHalfEven x := by
  have hfl : n ≤ ⌊x⌋ := Int.le_floor.mpr h
  unfold roundHalfEven
  split_ifs <;> omega

/-- `roundHalfEven` never exceeds an integer upper bound. -/
theorem roundHalfEven_le_of_le (x : ℚ) (n : ℤ) (h : x ≤ (n : ℚ)) :
    roundHalfEven x ≤ n := by
  have hmono : ⌊x⌋ ≤ n := by
    have := Int.floor_le_floor h
    simpa using this
  have hfl : (⌊x⌋ : ℚ) ≤ x := Int.floor_le x
  unfold roundHalfEven
  split_ifs with h1 h2 h3
  · exact hmono
  · have hlt : (⌊x⌋ : ℚ) < (n : ℚ) := by linarith
    have : ⌊x⌋ < n := by exact_mod_cast hlt
    omega
  · exact hmono
  · have heq : x - ⌊x⌋ = 1/2 := le_antisymm (not_lt.mp h2) (not_lt.mp h1)
    have hlt : (⌊x⌋ : ℚ) < (n : ℚ) := by linarith
    have : ⌊x⌋ < n := by exact_mod_cast hlt
    omega

/-- `pyRound` keeps a value inside integer bounds. -/
theorem pyRound_bounds (d : ℕ) (x : ℚ) (lo hi : ℤ)
    (h1 : (lo : ℚ) ≤ x) (h2 : x ≤ (hi : ℚ)) :
    (lo : ℚ) ≤ pyRound d x ∧ pyRound d x ≤ (hi : ℚ) := by
  have hp : (0 : ℚ) < 10 ^ d := by positivity
  have hlo : (lo * 10 ^ d : ℤ) ≤ roundHalfEven (x * 10 ^ d) := by
    refine le_roundHalfEven_of_le _ _ ?_
    push_cast
    exact mul_le_mul_of_nonneg_right h1 (le_of_lt hp)
  have hhi : roundHalfEven (x * 10 ^ d) ≤ (hi * 10 ^ d : ℤ) := by
    refine roundHalfEven_le_of_le _ _ ?_
    push_cast
    exact mul_le_mul_of_nonneg_right h2 (le_of_lt hp)
  constructor
  · rw [pyRound, le_div_iff₀ hp]
    calc ((lo : ℚ) * 10 ^ d) = ((lo * 10 ^ d : ℤ) : ℚ) := by push_cast; ring
    _ ≤ (roundHalfEven (x * 10 ^ d) : ℚ) := by exact_mod_cast hlo
  · rw [pyRound, div_le_iff₀ hp]
    calc (roundHalfEven (x * 10 ^ d) : ℚ) ≤ ((hi * 10 ^ d : ℤ) : ℚ) := by exact_mod_cast hhi
    _ = (hi : ℚ) * 10 ^ d := by push_cast; ring

/-- Counterexample to claim C3 as stated: with every normalization function
constant `1` (inside `[0,1]`) but a user-supplied drawdown weight of `2`,
the snapshot emitted at index 199 of a 200-bar series carries the composite
score `200`, which is not in `[0,100]`. -/
theorem c3_counterexample :
    (compute_score_at_date extW dfW200 199 cfgBad).map Snapshot.score = some 200 ∧
    ¬ ((200 : ℚ) ≤ 100) := by
  constructor
  · have hlen : ¬ ((dfW200.take (199 + 1)).length < 200) := by
      unfold dfW200
      rw [List.length_take, List.length_map, List.length_range]
      norm_num
    unfold compute_score_at_date scoreOfHistorical
    rw [if_neg hlen]
    simp only [Option.map_some']
    congr 1
    show pyRound 1 (100 * compositeOf extW cfgBad ((dfW200.take (199 + 1)).map Bar.close)) = 200
    rw [compositeOf]
    show pyRound 1 (100 * (2 * 1 + 0 * 1 + 0 * 1 + 0 * 1 + 0 * 1 + 0 * 1)) = 200
    rw [pyRound, roundHalfEven]
    norm_num
  · norm_num

/-- Claim C3 amended: the `[0,100]` bound does not hold for arbitrary
user-supplied weights (see the counterexample), but it does hold whenever
the six weights are nonnegative and sum to at most `1` — in particular for
the compiled-in defaults, which sum to exactly `1` — assuming each external
normalization function returns a value in `[0,1]`. -/
theorem c3_score_bounded (ext : Externals) (cfg : ScoreCfg) (df : List Bar) (i : ℕ)
    (hw1 : 0 ≤ cfg.weights.drawdown90) (hw2 : 0 ≤ cfg.weights.rsi14)
    (hw3 : 0 ≤ cfg.weights.dist_ma50) (hw4 : 0 ≤ cfg.weights.momentum30)
    (hw5 : 0 ≤ cfg.weights.trend_ma200) (hw6 : 0 ≤ cfg.weights.volatility20)
    (hsum : cfg.weights.drawdown90 + cfg.weights.rsi14 + cfg.weights.dist_ma50 +
      cfg.weights.momentum30 + cfg.weights.trend_ma200 + cfg.weights.volatility20 ≤ 1)
    (hd : ∀ x c, 0 ≤ ext.score_drawdown x c ∧ ext.score_drawdown x c ≤ 1)
    (hr : ∀ x, 0 ≤ ext.score_rsi x ∧ ext.score_rsi x ≤ 1)
    (hm50 : ∀ x y, 0 ≤ ext.score_dist_ma50 x y ∧ ext.score_dist_ma50 x y ≤ 1)
    (hmom : ∀ x, 0 ≤ ext.score_momentum x ∧ ext.score_momentum x ≤ 1)
    (ht : ∀ x y, 0 ≤ ext.score_trend_ma200 x y ∧ ext.score_trend_ma200 x y ≤ 1)
    (hv : ∀ x c, 0 ≤ ext.score_volatility x c ∧ ext.score_volatility x c ≤ 1) :
    ∀ s, compute_score_at_date ext df i cfg = some s →
      0 ≤ s.score ∧ s.score ≤ 100 := by
  intro s hs
  unfold compute_score_at_date scoreOfHistorical at hs
  split at hs
  · exact Option.noConfusion hs
  · obtain rfl := (Option.some.inj hs).symm
    show 0 ≤ pyRound 1 (100 * compositeOf ext cfg _) ∧
      pyRound 1 (100 * compositeOf ext cfg _) ≤ 100
    set closes := ((df.take (i + 1)).map Bar.close) with hcl
    obtain ⟨hd0, hd1⟩ := hd (drawdown90Of closes) cfg.drawdown_cap
    obtain ⟨hr0, hr1⟩ := hr (rsi14Of ext closes)
    obtain ⟨h50a, h50b⟩ := hm50 (closes.getLastD 0) (ma50Of closes)
    obtain ⟨hma, hmb⟩ := hmom (momentum30Of closes)
    obtain ⟨hta, htb⟩ := ht (closes.getLastD 0) (ma200Of closes)
    obtain ⟨hva, hvb⟩ := hv (vol20Of ext closes) cfg.volatility_cap
    have hc0 : 0 ≤ compositeOf ext cfg closes := by
      rw [compositeOf]
      have t1 := mul_nonneg hw1 hd0
      have t2 := mul_nonneg hw2 hr0
      have t3 := mul_nonneg hw3 h50a
      have t4 := mul_nonneg hw4 hma
      have t5 := mul_nonneg hw5 hta
      have t6 := mul_nonneg hw6 hva
      linarith
    have hc1 : compositeOf ext cfg closes ≤ 1 := by
      rw [compositeOf]
      have t1 := mul_le_of_le_one_right hw1 hd1
      have t2 := mul_le_of_le_one_right hw2 hr1
      have t3 := mul_le_of_le_one_right hw3 h50b
      have t4 := mul_le_of_le_one_right hw4 hmb
      have t5 := mul_le_of_le_one_right hw5 htb
      have t6 := mul_le_of_le_one_right hw6 hvb
      linarith
    have := pyRound_bounds 1 (100 * compositeOf ext cfg closes) 0 100
      (by push_cast; linarith) (by push_cast; linarith)
    simpa using this

/-- Witness for C3's amended theorem at a concrete input: the default
weights with constant-`1/2` normalization functions on a 200-bar series
produce a snapshot whose score is inside `[0,100]`. -/
theorem c3_score_bounded_witness :
    0 ≤ ((compute_score_at_date extHalf dfW200 199 cfgW).getD ⟨0, 0, 0, 0, 0, 0⟩).score ∧
    ((compute_score_at_date extHalf dfW200 199 cfgW).getD ⟨0, 0, 0, 0, 0, 0⟩).score ≤ 100 := by
  have hsome : compute_score_at_date extHalf dfW200 199 cfgW =
      some ((compute_score_at_date extHalf dfW200 199 cfgW).getD ⟨0, 0, 0, 0, 0, 0⟩) := by
    have hlen : ¬ ((dfW200.take (199 + 1)).length < 200) := by
      unfold dfW200
      rw [List.length_take, List.length_map, List.length_range]
      norm_num
    unfold compute_score_at_date scoreOfHistorical
    rw [if_neg hlen]
    rfl
  refine c3_score_bounded extHalf cfgW dfW200 199 ?_ ?_ ?_ ?_ ?_ ?_ ?_ ?_ ?_ ?_ ?_ ?_ ?_ _ hsome
  · norm_num [cfgW]
  · norm_num [cfgW]
  · norm_num [cfgW]
  · norm_num [cfgW]
  · norm_num [cfgW]
  · norm_num [cfgW]
  · norm_num [cfgW]
  · intro x c; constructor <;> norm_num [extHalf]
  · intro x; constructor <;> norm_num [extHalf]
  · intro x y; constructor <;> norm_num [extHalf]
  · intro x; constructor <;> norm_num [extHalf]
  · intro x y; constructor <;> norm_num [extHalf]
  · intro x c; constructor <;> norm_num [extHalf]

/-- In a sorted timestamp index, the searchsorted insertion point is the
first position whose entry is `≥ t`: all earlier entries are `< t`, and the
entry at the insertion point (when it exists) is `≥ t`. -/
theorem searchsorted_first_ge (l : List ℤ) (t : ℤ) (h : l.Pairwise (· ≤ ·)) :
    (∀ j, j < searchsorted l t → l.getD j 0 < t) ∧
    (searchsorted l t < l.length → t ≤ l.getD (searchsorted l t) 0) := by
  induction l with
  | nil =>
    refine ⟨fun j hj => absurd hj ?_, fun hj => absurd hj ?_⟩ <;>
      simp [searchsorted]
  | cons d tl ih =>
    obtain ⟨hd, htl⟩ := List.pairwise_cons.mp h
    obtain ⟨ih1, ih2⟩ := ih htl
    by_cases hdt : d < t
    · have hc : searchsorted (d :: tl) t = searchsorted tl t + 1 := by
        simp [searchsorted, List.countP_cons, hdt]
      constructor
      · intro j hj
        rw [hc] at hj
        cases j with
        | zero => simpa using hdt
        | succ j =>
          rw [List.getD_cons_succ]
          exact ih1 j (by omega)
      · intro hlt
        rw [hc] at hlt ⊢
        rw [List.getD_cons_succ]
        exact ih2 (by simpa using hlt)
    · have hzero : searchsorted (d :: tl) t = 0 := by
        have hnone : ∀ x ∈ tl, ¬ ((fun d => decide (d < t)) x = true) := by
          intro x hx
          have := hd x hx
          simp only [decide_eq_true_eq]
          omega
        simp [searchsorted, List.countP_cons, hdt, List.countP_eq_zero.mpr hnone]
      constructor
      · intro j hj
        rw [hzero] at hj
        omega
      · intro _
        rw [hzero, List.getD_cons_zero]
        omega

/-- Claim C4 (walk-forward emission): the simulator iterates
`i = start_idx, start_idx + interval, …` up to the series length, where
`start_idx` is the first index whose timestamp is `≥ start` (for a sorted
series); it emits a record at `i` exactly when the Score Assembler produces
a snapshot at `i` and `i + 30` is a valid series index, in which case
`return_30d = round((close[i+30] - close[i]) / close[i] * 100, 2)`; an
index lacking the snapshot or the forward window contributes nothing. -/
theorem c4_walk_forward (ext : Externals) (cfg : ScoreCfg) (df : List Bar)
    (startTs : ℤ) (k : ℕ) (hsorted : (df.map Bar.date).Pairwise (· ≤ ·)) :
    (∀ j, j < searchsorted (df.map Bar.date) startTs →
      (df.map Bar.date).getD j 0 < startTs) ∧
    (searchsorted (df.map Bar.date) startTs < df.length →
      startTs ≤ (df.map Bar.date).getD (searchsorted (df.map Bar.date) startTs) 0) ∧
    (∀ i s, i ∈ pyRange (searchsorted (df.map Bar.date) startTs) df.length k →
      compute_score_at_date ext df i cfg = some s → i + 30 < df.length →
      (BtRecord.mk s (pyRound 2 ((closeAt df (i + 30) - closeAt df i) / closeAt df i * 100)))
        ∈ backtest_records ext cfg df startTs k) ∧
    (∀ r, r ∈ backtest_records ext cfg df startTs k →
      ∃ i, i ∈ pyRange (searchsorted (df.map Bar.date) startTs) df.length k ∧
        compute_score_at_date ext df i cfg = some r.snap ∧ i + 30 < df.length ∧
        r.return30d = pyRound 2 ((closeAt df (i + 30) - closeAt df i) / closeAt df i * 100)) := by
  refine ⟨(searchsorted_first_ge _ _ hsorted).1, ?_, ?_, ?_⟩
  · intro hlt
    exact (searchsorted_first_ge _ _ hsorted).2 (by simpa using hlt)
  · intro i s hi hs h30
    unfold backtest_records
    refine List.mem_filterMap.mpr ⟨i, hi, ?_⟩
    rw [hs]
    show (if i + 30 < df.length then
        some (BtRecord.mk s (pyRound 2 ((closeAt df (i + 30) - closeAt df i) / closeAt df i * 100)))
      else none) = _
    rw [if_pos h30]
  · intro r hr
    unfold backtest_records at hr
    obtain ⟨i, hi, hemit⟩ := List.mem_filterMap.mp hr
    refine ⟨i, hi, ?_⟩
    cases hcs : compute_score_at_date ext df i cfg with
    | none =>
      rw [hcs] at hemit
      exact Option.noConfusion hemit
    | some s =>
      rw [hcs] at hemit
      replace hemit : (if i + 30 < df.length then
          some (BtRecord.mk s (pyRound 2 ((closeAt df (i + 30) - closeAt df i) / closeAt df i * 100)))
        else none) = some r := hemit
      by_cases h30 : i + 30 < df.length
      · rw [if_pos h30] at hemit
        obtain rfl := (Option.some.inj hemit).symm
        exact ⟨rfl, h30, rfl⟩
      · rw [if_neg h30] at hemit
        exact Option.noConfusion hemit

/-- Witness for C4 at a concrete input: on the sorted three-bar series with
start timestamp `1`, the bar before the insertion point is dated `< 1`. -/
theorem c4_walk_forward_witness :
    (dfW3.map Bar.date).getD 0 0 < 1 :=
  (c4_walk_forward extW cfgW dfW3 1 7 (by decide)).1 0 (by decide)

/-- Counterexample to claim C5 as stated: `pd.cut` with bins `[0,45,55,100]`
uses right-closed intervals, so a score of exactly `45` lands in the
unfavorable band (the claim says neutral) and a score of exactly `0` falls
in no band at all (the claim says unfavorable); the neutral group of a
single record scoring `45` is empty while its unfavorable group is not. -/
theorem c5_counterexample :
    scoreBand 45 = some Band.unfavorable ∧
    scoreBand 45 ≠ some Band.neutral ∧
    scoreBand 0 = none ∧
    bandReturns [⟨45, 1⟩] Band.neutral = [] ∧
    bandReturns [⟨45, 1⟩] Band.unfavorable = [1] := by
  refine ⟨?_, ?_, ?_, ?_, ?_⟩ <;> decide

/-- Claim C5 amended: `analyze_results` partitions via `pd.cut` with
right-closed bins — unfavorable `(0,45]`, neutral `(45,55]`, favorable
`(55,100]` — so `45` counts as unfavorable, `55` as neutral, and a score
`≤ 0` or `> 100` is assigned to no band and excluded from the per-band
statistics, which aggregate exactly the records of their band; the
favorable/unfavorable detail breakdowns instead use `score > 55` and
`score < 45`: on scores in `(0,100]` the favorable detail coincides with
the favorable band, while the unfavorable band is `score ≤ 45`, so the
unfavorable detail misses exactly the banded score `45`. -/
theorem c5_banding (s : ℚ) (rs : List ARec) (r : ARec) :
    (scoreBand s = some Band.unfavorable ↔ 0 < s ∧ s ≤ 45) ∧
    (scoreBand s = some Band.neutral ↔ 45 < s ∧ s ≤ 55) ∧
    (scoreBand s = some Band.favorable ↔ 55 < s ∧ s ≤ 100) ∧
    (scoreBand s = none ↔ s ≤ 0 ∨ 100 < s) ∧
    (∀ b, r ∈ bandRecords rs b ↔ r ∈ rs ∧ scoreBand r.score = some b) ∧
    (r ∈ favorableRecords rs ↔ r ∈ rs ∧ 55 < r.score) ∧
    (r ∈ unfavorableRecords rs ↔ r ∈ rs ∧ r.score < 45) ∧
    (0 < r.score → r.score ≤ 100 →
      ((55 < r.score ↔ scoreBand r.score = some Band.favorable) ∧
       (scoreBand r.score = some Band.unfavorable ↔ r.score ≤ 45))) := by
  have key : ∀ x : ℚ,
      (scoreBand x = some Band.unfavorable ↔ 0 < x ∧ x ≤ 45) ∧
      (scoreBand x = some Band.neutral ↔ 45 < x ∧ x ≤ 55) ∧
      (scoreBand x = some Band.favorable ↔ 55 < x ∧ x ≤ 100) ∧
      (scoreBand x = none ↔ x ≤ 0 ∨ 100 < x) := by
    intro x
    unfold scoreBand
    split_ifs with h1 h2 h3
    · exact ⟨iff_of_true rfl h1,
        iff_of_false (by simp) (by rintro ⟨hc, _⟩; linarith [h1.2]),
        iff_of_false (by simp) (by rintro ⟨hc, _⟩; linarith [h1.2]),
        iff_of_false (by simp) (by rintro (hc | hc) <;> linarith [h1.1, h1.2])⟩
    · exact ⟨iff_of_false (by simp) h1,
        iff_of_true rfl h2,
        iff_of_false (by simp) (by rintro ⟨hc, _⟩; linarith [h2.2]),
        iff_of_false (by simp) (by rintro (hc | hc) <;> linarith [h2.1, h2.2])⟩
    · exact ⟨iff_of_false (by simp) h1,
        iff_of_false (by simp) h2,
        iff_of_true rfl h3,
        iff_of_false (by simp) (by rintro (hc | hc) <;> linarith [h3.1, h3.2])⟩
    · refine ⟨iff_of_false (by simp) h1,
        iff_of_false (by simp) h2,
        iff_of_false (by simp) h3,
        iff_of_true rfl ?_⟩
      by_cases hx : x ≤ 0
      · exact Or.inl hx
      · push_neg at hx h1 h2 h3
        exact Or.inr (h3 (h2 (h1 hx)))
  obtain ⟨k1, k2, k3, k4⟩ := key s
  refine ⟨k1, k2, k3, k4, ?_, ?_, ?_, ?_⟩
  · intro b
    unfold bandRecords
    rw [List.mem_filter]
    simp
  · unfold favorableRecords
    rw [List.mem_filter]
    simp
  · unfold unfavorableRecords
    rw [List.mem_filter]
    simp
  · intro hpos hle
    obtain ⟨f1, _, f3, _⟩ := key r.score
    constructor
    · constructor
      · intro h55
        exact f3.mpr ⟨h55, hle⟩
      · intro hb
        exact (f3.mp hb).1
    · constructor
      · intro hb
        exact (f1.mp hb).2
      · intro h45
        exact f1.mpr ⟨hpos, h45⟩

/-- Witness for C5's amended theorem at a concrete input: the record
scoring `60` with return `5` is in the favorable detail breakdown of the
two-record set of the spec's analyzer scenario. -/
theorem c5_banding_witness :
    ARec.mk 60 5 ∈ favorableRecords [ARec.mk 60 5, ARec.mk 40 (-3)] :=
  (c5_banding 60 [ARec.mk 60 5, ARec.mk 40 (-3)] (ARec.mk 60 5)).2.2.2.2.2.1.mpr
    ⟨by decide, by decide⟩

/-- The multi-ticker fold is the concatenation, in ticker order, of each
ticker's tagged single-run records (a failed or empty run contributing
nothing). -/
theorem run_multi_foldl (ext : Externals) (cfg : ScoreCfg)
    (fetch : String → Option (List Bar)) (startTs : ℤ) (k : ℕ) :
    ∀ (ts : List String) (acc : List TaggedRecord),
      ts.foldl (fun acc t =>
        match run_backtest ext cfg fetch t startTs k with
        | none => acc
        | some recs => if recs.isEmpty then acc else acc ++ recs.map (fun r => ⟨t, r⟩)) acc
      = acc ++ ts.flatMap (fun t =>
          ((run_backtest ext cfg fetch t startTs k).getD []).map (fun r => ⟨t, r⟩)) := by
  intro ts
  induction ts with
  | nil => intro acc; simp
  | cons t ts ih =>
    intro acc
    rw [List.foldl_cons, List.flatMap_cons, ← List.append_assoc]
    cases hrb : run_backtest ext cfg fetch t startTs k with
    | none =>
      rw [ih]
      simp [hrb]
    | some recs =>
      by_cases he : recs.isEmpty
      · have hrec : recs = [] := List.isEmpty_iff.mp he
        subst hrec
        rw [ih]
        simp [hrb]
      · rw [ih]
        simp [hrb, he, List.append_assoc]

/-- Records produced by other tickers never carry tag `t`: filtering the
concatenated tagged runs by ticker `t` returns exactly `t`'s own records,
provided the ticker list has no duplicates. -/
theorem filter_tag_bind (f : String → List BtRecord) (t : String) :
    ∀ ts : List String, ts.Nodup → t ∈ ts →
      (ts.flatMap (fun u => (f u).map (fun r => TaggedRecord.mk u r))).filter
        (fun tr => decide (tr.ticker = t))
      = (f t).map (fun r => TaggedRecord.mk t r) := by
  intro ts
  induction ts with
  | nil => intro _ h; simp at h
  | cons u ts ih =>
    intro hnd hmem
    obtain ⟨hu, hnd'⟩ := List.nodup_cons.mp hnd
    rw [List.flatMap_cons, List.filter_append]
    rcases List.mem_cons.mp hmem with rfl | hmem'
    · have h1 : ((f t).map (fun r => TaggedRecord.mk t r)).filter
          (fun tr => decide (tr.ticker = t)) = (f t).map (fun r => TaggedRecord.mk t r) := by
        apply List.filter_eq_self.mpr
        intro a ha
        obtain ⟨r, _, rfl⟩ := List.mem_map.mp ha
        simp
      have h2 : (ts.flatMap (fun v => (f v).map (fun r => TaggedRecord.mk v r))).filter
          (fun tr => decide (tr.ticker = t)) = [] := by
        apply List.filter_eq_nil_iff.mpr
        intro a ha
        obtain ⟨v, hv, ha'⟩ := List.mem_flatMap.mp ha
        obtain ⟨r, _, rfl⟩ := List.mem_map.mp ha'
        simp only [decide_eq_true_eq]
        exact fun heq => hu (heq ▸ hv)
      rw [h1, h2, List.append_nil]
    · have hne : u ≠ t := fun heq => hu (heq ▸ hmem')
      have h1 : ((f u).map (fun r => TaggedRecord.mk u r)).filter
          (fun tr => decide (tr.ticker = t)) = [] := by
        apply List.filter_eq_nil_iff.mpr
        intro a ha
        obtain ⟨r, _, rfl⟩ := List.mem_map.mp ha
        simpa using hne
      rw [h1, List.nil_append, ih hnd' hmem']

/-- Claim C9 (per-ticker failure isolation): in a multi-ticker backtest over
distinct tickers, the combined output restricted to any ticker `t` is
exactly the tagged record set of `t`'s own single-ticker run — independent
of every other ticker's outcome — and a ticker whose retrieval fails
(download exception or empty result) contributes no records at all. -/
theorem c9_ticker_isolation (ext : Externals) (cfg : ScoreCfg)
    (fetch : String → Option (List Bar)) (tickers : List String)
    (startTs : ℤ) (k : ℕ) (t : String)
    (hnd : tickers.Nodup) (ht : t ∈ tickers) :
    (run_multi_ticker_backtest ext cfg fetch tickers startTs k).filter
        (fun tr => decide (tr.ticker = t))
      = ((run_backtest ext cfg fetch t startTs k).getD []).map (fun r => ⟨t, r⟩) ∧
    (fetch t = none →
      (run_multi_ticker_backtest ext cfg fetch tickers startTs k).filter
        (fun tr => decide (tr.ticker = t)) = []) := by
  have hmulti : run_multi_ticker_backtest ext cfg fetch tickers startTs k
      = tickers.flatMap (fun u =>
          ((run_backtest ext cfg fetch u startTs k).getD []).map (fun r => ⟨u, r⟩)) := by
    unfold run_multi_ticker_backtest
    rw [run_multi_foldl]
    exact List.nil_append _
  constructor
  · rw [hmulti]
    exact filter_tag_bind (fun u => (run_backtest ext cfg fetch u startTs k).getD [])
      t tickers hnd ht
  · intro hf
    rw [hmulti, filter_tag_bind (fun u => (run_backtest ext cfg fetch u startTs k).getD [])
      t tickers hnd ht]
    unfold run_backtest
    rw [hf]
    rfl

/-- Witness for C9 at a concrete input: ticker `A`'s retrieval fails in the
two-ticker run `["A", "B"]`, and the combined output carries no `A` records. -/
theorem c9_ticker_isolation_witness :
    (run_multi_ticker_backtest extW cfgW fetchW ["A", "B"] 0 7).filter
      (fun tr => decide (tr.ticker = "A")) = [] :=
  (c9_ticker_isolation extW cfgW fetchW ["A", "B"] 0 7 "A" (by decide) (by decide)).2 rfl

/-- The `isSome` of a dict lookup agrees with the underlying `find?`. -/
theorem objFind_isSome (c : Obj) (k : String) :
    (objFind c k).isSome = (c.find? (fun kv => decide (kv.1 = k))).isSome := by
  unfold objFind
  cases c.find? (fun kv => decide (kv.1 = k)) <;> rfl

/-- Looking up the key just assigned by `objSet` yields the new value. -/
theorem objFind_objSet_self (c : Obj) (k : String) (v : CVal) :
    objFind (objSet c k v) k = some v := by
  have sub1 : ∀ c : Obj, objFind c k ≠ none →
      objFind (c.map (fun kv => if kv.1 = k then (k, v) else kv)) k = some v := by
    intro c
    induction c with
    | nil => intro h; exact absurd rfl h
    | cons kv tl ih =>
      intro h
      by_cases hk : kv.1 = k
      · simp [objFind, hk]
      · unfold objFind at h ⊢
        rw [List.find?_cons_of_neg _ (by simp [hk])] at h
        rw [List.map_cons, if_neg hk, List.find?_cons_of_neg _ (by simp [hk])]
        exact ih h
  have sub2 : ∀ c : Obj, objFind c k = none → objFind (c ++ [(k, v)]) k = some v := by
    intro c
    induction c with
    | nil => intro _; simp [objFind]
    | cons kv tl ih =>
      intro h
      unfold objFind at h ⊢
      by_cases hk : kv.1 = k
      · rw [List.find?_cons_of_pos _ (by simp [hk])] at h
        exact Option.noConfusion h
      · rw [List.find?_cons_of_neg _ (by simp [hk])] at h
        rw [List.cons_append, List.find?_cons_of_neg _ (by simp [hk])]
        exact ih h
  unfold objSet
  split_ifs with h
  · refine sub1 c ?_
    intro hn
    rw [← objFind_isSome] at h
    rw [hn] at h
    exact Bool.noConfusion h
  · refine sub2 c ?_
    rw [← objFind_isSome] at h
    cases hf : objFind c k with
    | none => rfl
    | some w => rw [hf] at h; exact absurd rfl h

/-- Assigning one key leaves every other key's lookup unchanged. -/
theorem objFind_objSet_ne (c : Obj) (k : String) (v : CVal) (q : String) (h : q ≠ k) :
    objFind (objSet c k v) q = objFind c q := by
  have sub1 : ∀ c : Obj,
      objFind (c.map (fun kv => if kv.1 = k then (k, v) else kv)) q = objFind c q := by
    intro c
    induction c with
    | nil => rfl
    | cons kv tl ih =>
      by_cases hk : kv.1 = k
      · by_cases hq : kv.1 = q
        · exact absurd (hq.symm.trans hk) h
        · unfold objFind at ih ⊢
          rw [List.map_cons, if_pos hk, List.find?_cons_of_neg _ (by simp [h.symm]),
            List.find?_cons_of_neg _ (by simp [hq])]
          exact ih
      · by_cases hq : kv.1 = q
        · unfold objFind
          rw [List.map_cons, if_neg hk, List.find?_cons_of_pos _ (by simp [hq]),
            List.find?_cons_of_pos _ (by simp [hq])]
        · unfold objFind at ih ⊢
          rw [List.map_cons, if_neg hk, List.find?_cons_of_neg _ (by simp [hq]),
            List.find?_cons_of_neg _ (by simp [hq])]
          exact ih
  have sub2 : ∀ c : Obj, objFind (c ++ [(k, v)]) q = objFind c q := by
    intro c
    induction c with
    | nil =>
      unfold objFind
      rw [List.nil_append, List.find?_cons_of_neg _ (by simp [h.symm])]
    | cons kv tl ih =>
      unfold objFind at ih ⊢
      by_cases hq : kv.1 = q
      · rw [List.cons_append, List.find?_cons_of_pos _ (by simp [hq]),
          List.find?_cons_of_pos _ (by simp [hq])]
      · rw [List.cons_append, List.find?_cons_of_neg _ (by simp [hq]),
          List.find?_cons_of_neg _ (by simp [hq])]
        exact ih
  unfold objSet
  split_ifs with hs
  · exact sub1 c
  · exact sub2 c

/-- `str.split` never returns an empty list of parts. -/
theorem splitOnChar_ne_nil (c : Char) (l : List Char) : splitOnChar c l ≠ [] := by
  induction l with
  | nil => simp [splitOnChar]
  | cons x xs ih =>
    unfold splitOnChar
    split_ifs with hx
    · simp
    · cases hr : splitOnChar c xs with
      | nil => simp
      | cons h t => simp

/-- `key.split(".")` never returns an empty list of parts. -/
theorem keyParts_ne_nil (k : String) : keyParts k ≠ [] := by
  unfold keyParts
  intro h
  exact splitOnChar_ne_nil '.' k.toList (List.map_eq_nil_iff.mp h)

/-- When every proper prefix of a nonempty dotted path is absent or a
nested mapping, the nested assignment succeeds and reading the same path
back from the result returns exactly the assigned value. -/
theorem setPath_getPath (v : CVal) :
    ∀ (parts : List String) (c : Obj), parts ≠ [] →
      prefixesOk c parts.dropLast = true →
      ∃ r, setPath c parts v = some r ∧ getPath (.obj r) parts = some v := by
  intro parts
  induction parts with
  | nil => intro c h _; exact absurd rfl h
  | cons p rest ih =>
    intro c _ hpre
    cases rest with
    | nil =>
      refine ⟨objSet c p v, rfl, ?_⟩
      show getPath (.obj (objSet c p v)) [p] = some v
      show (match objFind (objSet c p v) p with
        | some w => getPath w []
        | none => none) = some v
      rw [objFind_objSet_self]
      rfl
    | cons q rest2 =>
      have hd : (p :: q :: rest2).dropLast = p :: (q :: rest2).dropLast := rfl
      rw [hd] at hpre
      unfold prefixesOk at hpre
      cases hf : objFind c p with
      | none =>
        have hpre2 : prefixesOk [] (q :: rest2).dropLast = true := by
          cases hdl : (q :: rest2).dropLast with
          | nil => rfl
          | cons a tl =>
            show prefixesOk [] (a :: tl) = true
            unfold prefixesOk
            rfl
        obtain ⟨r', hr', hg'⟩ := ih [] (by simp) hpre2
        refine ⟨objSet c p (.obj r'), ?_, ?_⟩
        · show setPath c (p :: q :: rest2) v = _
          unfold setPath
          rw [hf]
          show Option.map (fun sub => objSet c p (CVal.obj sub)) (setPath [] (q :: rest2) v)
            = some (objSet c p (CVal.obj r'))
          rw [hr']
          rfl
        · show getPath (.obj (objSet c p (.obj r'))) (p :: q :: rest2) = some v
          show (match objFind (objSet c p (CVal.obj r')) p with
            | some w => getPath w (q :: rest2)
            | none => none) = some v
          rw [objFind_objSet_self]
          exact hg'
      | some w =>
        rw [hf] at hpre
        cases w with
        | obj sub =>
          have hpre2 : prefixesOk sub (q :: rest2).dropLast = true := hpre
          obtain ⟨r', hr', hg'⟩ := ih sub (by simp) hpre2
          refine ⟨objSet c p (.obj r'), ?_, ?_⟩
          · show setPath c (p :: q :: rest2) v = _
            unfold setPath
            rw [hf]
            show Option.map (fun sub2 => objSet c p (CVal.obj sub2)) (setPath sub (q :: rest2) v)
              = some (objSet c p (CVal.obj r'))
            rw [hr']
            rfl
          · show getPath (.obj (objSet c p (.obj r'))) (p :: q :: rest2) = some v
            show (match objFind (objSet c p (CVal.obj r')) p with
              | some w => getPath w (q :: rest2)
              | none => none) = some v
            rw [objFind_objSet_self]
            exact hg'
        | num a => exact Bool.noConfusion hpre
        | str a => exact Bool.noConfusion hpre
        | bool a => exact Bool.noConfusion hpre
        | null => exact Bool.noConfusion hpre
        | arr a => exact Bool.noConfusion hpre

/-- A failing override application decomposes the rows into the successfully
applied prefix, the raising row, and the dropped tail. -/
theorem apply_overrides_fail (jdec : String → Option CVal) :
    ∀ (rows : List (String × StoredVal)) (b c : Obj),
      apply_overrides jdec b rows = (c, true) →
      ∃ pre r post, rows = pre ++ r :: post ∧
        apply_overrides jdec b pre = (c, false) ∧
        apply_override jdec c r.1 r.2 = none := by
  intro rows
  induction rows with
  | nil =>
    intro b c h
    injection h with h1 h2
    exact Bool.noConfusion h2
  | cons r rest ih =>
    intro b c h
    unfold apply_overrides at h
    cases hao : apply_override jdec b r.1 r.2 with
    | some c₁ =>
      rw [hao] at h
      obtain ⟨pre, r', post, hsplit, hpre, hfail⟩ := ih c₁ c h
      refine ⟨r :: pre, r', post, by rw [hsplit]; rfl, ?_, hfail⟩
      show apply_overrides jdec b (r :: pre) = (c, false)
      unfold apply_overrides
      rw [hao]
      exact hpre
    | none =>
      rw [hao] at h
      injection h with h1 h2
      subst h1
      exact ⟨[], r, rest, rfl, rfl, hao⟩

/-- Counterexample to claim C6 as stated: the override row
`"weights.rsi14" = "abc"` fails JSON decoding, and `get_config` then assigns
the raw string at the flat key `"weights.rsi14"` instead of merging it at
the nested path — the nested `weights.rsi14` still resolves to the default
`1/4`, not the raw string, while the flat key holds the raw string. -/
theorem c6_counterexample :
    get_config_value jdecNone [] (some ⟨[("weights.rsi14", .rawStr "abc")], [], []⟩)
      "weights.rsi14" = some (CVal.num (1/4)) ∧
    (get_config jdecNone [] (some ⟨[("weights.rsi14", .rawStr "abc")], [], []⟩)).bind
      (fun c => objFind c "weights.rsi14") = some (CVal.str "abc") := by
  exact ⟨rfl, rfl⟩

/-- Claim C6 amended: a stored override string is JSON-decoded when
possible and kept raw on decode failure; a dotted key whose value decodes
is merged at the nested path (creating intermediate mappings as needed),
leaving sibling keys from lower-precedence sources untouched — in
particular `weights.rsi14 = v` resolves nested while the other five
default weights are unchanged; but a dotted key whose value does not
decode is assigned at the flat (undotted) key itself, invisible to the
nested resolution, which keeps its lower-precedence value. -/
theorem c6_dotted_override (v : CVal) (raw : String) :
    get_config_value jdecNone []
        (some ⟨[("weights.rsi14", StoredVal.enc v)], [], []⟩) "weights.rsi14" = some v ∧
    get_config_value jdecNone [] (some ⟨[("weights.rsi14", StoredVal.enc v)], [], []⟩)
        "weights.drawdown90" = some (CVal.num (1/4)) ∧
    get_config_value jdecNone [] (some ⟨[("weights.rsi14", StoredVal.enc v)], [], []⟩)
        "weights.dist_ma50" = some (CVal.num (1/5)) ∧
    get_config_value jdecNone [] (some ⟨[("weights.rsi14", StoredVal.enc v)], [], []⟩)
        "weights.momentum30" = some (CVal.num (3/20)) ∧
    get_config_value jdecNone [] (some ⟨[("weights.rsi14", StoredVal.enc v)], [], []⟩)
        "weights.trend_ma200" = some (CVal.num (1/10)) ∧
    get_config_value jdecNone [] (some ⟨[("weights.rsi14", StoredVal.enc v)], [], []⟩)
        "weights.volatility20" = some (CVal.num (1/20)) ∧
    get_config_value jdecNone [] (some ⟨[("top.mid.leaf", StoredVal.enc v)], [], []⟩)
        "top.mid.leaf" = some v ∧
    get_config_value jdecNone [] (some ⟨[("weights.rsi14", StoredVal.rawStr raw)], [], []⟩)
        "weights.rsi14" = some (CVal.num (1/4)) ∧
    (get_config jdecNone [] (some ⟨[("weights.rsi14", StoredVal.rawStr raw)], [], []⟩)).bind
      (fun c => objFind c "weights.rsi14") = some (CVal.str raw) := by
  exact ⟨rfl, rfl, rfl, rfl, rfl, rfl, rfl, rfl, rfl⟩

/-- Counterexample to claim C8 as stated: with override rows
`x = 1` then `x.y = 2`, the second row raises a `TypeError` inside the
nested walk (it descends into the non-mapping written by the first row);
`get_config` logs and returns — but the returned configuration still
carries the first override `x = 1`, so it does not equal the
lower-precedence configuration (in which `x` is absent). -/
theorem c8_counterexample :
    (apply_overrides jdecNone ((baseConfig []).getD []) dbFailTail.configRows).2 = true ∧
    (get_config jdecNone [] (some dbFailTail)).bind (fun c => objFind c "x")
      = some (CVal.num 1) ∧
    (get_config jdecNone [] none).bind (fun c => objFind c "x") = none := by
  exact ⟨rfl, rfl, rfl⟩

/-- Claim C8 amended: `get_config` is total over every store state (all
store exceptions are caught); when the store is unreachable or fails on
first access it returns exactly the lower-precedence configuration with no
overrides applied; when a malformed row raises mid-resolution, the rows
before the raising row remain applied and the raising row, the remaining
rows and the formulas/tickers sections are dropped. -/
theorem c8_store_failure (jdec : String → Option CVal) (yaml base : Obj)
    (hbase : baseConfig yaml = some base) :
    get_config jdec yaml none = some base ∧
    (∀ (s : DbState) (c : Obj),
      apply_overrides jdec base s.configRows = (c, true) →
      get_config jdec yaml (some s) = some c ∧
      ∃ pre r post, s.configRows = pre ++ r :: post ∧
        apply_overrides jdec base pre = (c, false) ∧
        apply_override jdec c r.1 r.2 = none) := by
  constructor
  · unfold get_config
    rw [hbase]
    rfl
  · intro s c h
    constructor
    · unfold get_config
      rw [hbase]
      show some (match apply_overrides jdec base s.configRows with
        | (c, true) => c
        | (c, false) => applyTickers (applyFormulas c s.formulas) s.tickers) = some c
      rw [h]
    · exact apply_overrides_fail jdec s.configRows base c h

/-- Witness for C8's amended theorem at a concrete input: with an empty
static file and an unreachable store, resolution returns exactly the
compiled-in defaults. -/
theorem c8_store_failure_witness :
    get_config jdecNone [] none = some ((baseConfig []).getD []) :=
  (c8_store_failure jdecNone [] ((baseConfig []).getD []) rfl).1

/-- Claim C10 (set/get round trip): writing a JSON-serializable non-string
value `v` under key `k` into an empty override store and reading `k` back
returns `v`, provided every proper dotted prefix of `k` is absent from the
effective base configuration or maps to a nested mapping; a string value
round-trips unchanged when the key is not dotted and the string does not
itself decode as JSON; a string that does decode comes back as its decoded
value (decoding is attempted on every read); and a dotted key holding an
undecodable string is assigned flat, so the dotted read misses it and
falls back to the default. -/
theorem c10_roundtrip (jdec : String → Option CVal) :
    (∀ (yaml base : Obj) (k : String) (v : CVal),
      baseConfig yaml = some base →
      (∀ s, v ≠ CVal.str s) →
      prefixesOk base ((keyParts k).dropLast) = true →
      get_config_value jdec yaml (some ⟨set_config_value [] k v, [], []⟩) k = some v) ∧
    (∀ (yaml base : Obj) (k s : String),
      baseConfig yaml = some base →
      jdec s = none → keyHasDot k = false →
      get_config_value jdec yaml (some ⟨set_config_value [] k (CVal.str s), [], []⟩) k
        = some (CVal.str s)) ∧
    (∀ (yaml base : Obj) (k s : String) (w : CVal),
      baseConfig yaml = some base →
      jdec s = some w → keyHasDot k = false →
      get_config_value jdec yaml (some ⟨set_config_value [] k (CVal.str s), [], []⟩) k
        = some w) ∧
    (∀ s : String, jdec s = none →
      get_config_value jdec [] (some ⟨set_config_value [] "zz.ww" (CVal.str s), [], []⟩)
        "zz.ww" = none) := by
  have hgcv : ∀ (yaml base : Obj) (rows : List (String × StoredVal)) (c : Obj) (k : String),
      baseConfig yaml = some base →
      apply_overrides jdec base rows = (c, false) →
      get_config_value jdec yaml (some ⟨rows, [], []⟩) k
        = (if keyHasDot k then getPath (.obj c) (keyParts k) else objFind c k) := by
    intro yaml base rows c k hbase hrows
    unfold get_config_value get_config
    rw [hbase]
    show (some (match apply_overrides jdec base rows with
      | (c, true) => c
      | (c, false) => applyTickers (applyFormulas c ([] : List (String × String × ℚ))) [])).bind
        (fun c => if keyHasDot k then getPath (.obj c) (keyParts k) else objFind c k) = _
    rw [hrows]
    rfl
  have hone : ∀ (base c : Obj) (k : String) (sv : StoredVal),
      apply_override jdec base k sv = some c →
      apply_overrides jdec base [(k, sv)] = (c, false) := by
    intro base c k sv hao
    unfold apply_overrides
    rw [hao]
    rfl
  refine ⟨?_, ?_, ?_, ?_⟩
  · intro yaml base k v hbase hstr hpre
    have hrow : set_config_value [] k v = [(k, StoredVal.enc v)] := by
      cases v with
      | str s => exact absurd rfl (hstr s)
      | num a => rfl
      | bool b => rfl
      | null => rfl
      | arr l => rfl
      | obj o => rfl
    rw [hrow]
    by_cases hdot : keyHasDot k
    · obtain ⟨r, hr, hg⟩ := setPath_getPath v (keyParts k) base (keyParts_ne_nil k) hpre
      have hao : apply_override jdec base k (StoredVal.enc v) = some r := by
        show applyDecoded base k v = some r
        unfold applyDecoded
        rw [if_pos hdot]
        exact hr
      rw [hgcv yaml base _ r k hbase (hone base r k _ hao), if_pos hdot]
      exact hg
    · have hao : apply_override jdec base k (StoredVal.enc v) = some (objSet base k v) := by
        show applyDecoded base k v = some (objSet base k v)
        unfold applyDecoded
        rw [if_neg hdot]
      rw [hgcv yaml base _ (objSet base k v) k hbase (hone base _ k _ hao), if_neg hdot]
      exact objFind_objSet_self base k v
  · intro yaml base k s hbase hjs hdot
    have hrow : set_config_value [] k (CVal.str s) = [(k, StoredVal.rawStr s)] := rfl
    rw [hrow]
    have hao : apply_override jdec base k (StoredVal.rawStr s)
        = some (objSet base k (CVal.str s)) := by
      show (match jdec s with
        | some v => applyDecoded base k v
        | none => some (objSet base k (CVal.str s))) = some (objSet base k (CVal.str s))
      rw [hjs]
    rw [hgcv yaml base _ (objSet base k (CVal.str s)) k hbase (hone base _ k _ hao),
      if_neg (by rw [hdot]; exact Bool.false_ne_true)]
    exact objFind_objSet_self base k (CVal.str s)
  · intro yaml base k s w hbase hjs hdot
    have hrow : set_config_value [] k (CVal.str s) = [(k, StoredVal.rawStr s)] := rfl
    rw [hrow]
    have hao : apply_override jdec base k (StoredVal.rawStr s)
        = some (objSet base k w) := by
      show (match jdec s with
        | some v => applyDecoded base k v
        | none => some (objSet base k (CVal.str s))) = some (objSet base k w)
      rw [hjs]
      show applyDecoded base k w = some (objSet base k w)
      unfold applyDecoded
      rw [if_neg (by rw [hdot]; exact Bool.false_ne_true)]
    rw [hgcv yaml base _ (objSet base k w) k hbase (hone base _ k _ hao),
      if_neg (by rw [hdot]; exact Bool.false_ne_true)]
    exact objFind_objSet_self base k w
  · intro s hjs
    have hrow : set_config_value [] "zz.ww" (CVal.str s) = [("zz.ww", StoredVal.rawStr s)] := rfl
    rw [hrow]
    have hbase : baseConfig [] = some ((baseConfig []).getD []) := rfl
    have hao : apply_override jdec ((baseConfig []).getD []) "zz.ww" (StoredVal.rawStr s)
        = some (objSet ((baseConfig []).getD []) "zz.ww" (CVal.str s)) := by
      show (match jdec s with
        | some v => applyDecoded ((baseConfig []).getD []) "zz.ww" v
        | none => some (objSet ((baseConfig []).getD []) "zz.ww" (CVal.str s)))
        = some (objSet ((baseConfig []).getD []) "zz.ww" (CVal.str s))
      rw [hjs]
    rw [hgcv [] ((baseConfig []).getD []) _ _ "zz.ww" hbase (hone _ _ _ _ hao)]
    rfl

/-- Witness for C10 at a concrete input: storing `7` under the dotted key
`alpha.beta` in an empty store and reading it back returns `7` (the
intermediate mapping `alpha` is created on the fly). -/
theorem c10_roundtrip_witness :
    get_config_value jdecNone []
      (some ⟨set_config_value [] "alpha.beta" (CVal.num 7), [], []⟩) "alpha.beta"
      = some (CVal.num 7) :=
  (c10_roundtrip jdecNone).1 [] ((baseConfig []).getD []) "alpha.beta" (CVal.num 7)
    rfl (fun _ h => CVal.noConfusion h) rfl

/-- Applying the profile's weight rows one by one equals, per formula,
looking up the unique row carrying that formula's name (when the row names
are distinct, as the table's primary key guarantees). -/
theorem formulas_fold_map (rows : List (ℕ × String × ℚ)) :
    ∀ fs : List Formula, (rows.map (fun r => r.2.1)).Nodup →
      rows.foldl (fun fs r =>
          fs.map (fun f => if f.name = r.2.1 then { f with weight := r.2.2 } else f)) fs
        = fs.map (fun f =>
            match rows.find? (fun r => decide (r.2.1 = f.name)) with
            | some r => { f with weight := r.2.2 }
            | none => f) := by
  induction rows with
  | nil =>
    intro fs _
    simp
  | cons r rest ih =>
    intro fs hnd
    rw [List.map_cons] at hnd
    obtain ⟨hr, hndr⟩ := List.nodup_cons.mp hnd
    rw [List.foldl_cons, ih _ hndr, List.map_map]
    apply List.map_congr_left
    intro f _
    simp only [Function.comp_apply]
    by_cases hname : f.name = r.2.1
    · rw [if_pos hname]
      rw [List.find?_cons_of_pos _ (by simp [hname])]
      have hfind : rest.find?
          (fun rr => decide (rr.2.1 = ({ f with weight := r.2.2 } : Formula).name)) = none := by
        apply List.find?_eq_none.mpr
        intro x hx
        simp only [decide_eq_true_eq]
        intro hx2
        exact hr (List.mem_map.mpr ⟨x, hx, hx2.trans hname⟩)
      rw [hfind]
    · rw [if_neg hname]
      rw [List.find?_cons_of_neg _ (by simpa using fun h => hname h.symm)]

/-- Claim C7 (profile activation frame): after `set_active_profile P` for an
existing profile `P`, exactly `P` is active (every other profile inactive);
each formula named in `P`'s saved weights carries `P`'s recorded value, and
every formula not named in `P` keeps its prior weight with no other field
changed (partial overwrite, not reset-to-zero); the profile-weight rows
themselves are untouched. -/
theorem c7_profile_activation (db : ProfileDb) (pid : ℕ)
    (hex : ∃ p ∈ db.profiles, p.id = pid)
    (hw : ((db.profileWeights.filter (fun r => decide (r.1 = pid))).map
      (fun r => r.2.1)).Nodup) :
    (∀ p ∈ (set_active_profile db pid).profiles, (p.isActive = true ↔ p.id = pid)) ∧
    (∃ p ∈ (set_active_profile db pid).profiles, p.id = pid ∧ p.isActive = true) ∧
    ((set_active_profile db pid).formulas = db.formulas.map (fun f =>
      match (db.profileWeights.filter (fun r => decide (r.1 = pid))).find?
          (fun r => decide (r.2.1 = f.name)) with
      | some r => { f with weight := r.2.2 }
      | none => f)) ∧
    (∀ f ∈ db.formulas,
      (∀ w, (pid, (f.name, w)) ∉ db.profileWeights) →
      f ∈ (set_active_profile db pid).formulas) ∧
    (∀ f ∈ db.formulas, ∀ w, (pid, (f.name, w)) ∈ db.profileWeights →
      ({ f with weight := w } : Formula) ∈ (set_active_profile db pid).formulas) ∧
    ((set_active_profile db pid).profileWeights = db.profileWeights) := by
  have heq : (set_active_profile db pid).formulas = db.formulas.map (fun f =>
      match (db.profileWeights.filter (fun r => decide (r.1 = pid))).find?
          (fun r => decide (r.2.1 = f.name)) with
      | some r => { f with weight := r.2.2 }
      | none => f) :=
    formulas_fold_map _ db.formulas hw
  refine ⟨?_, ?_, heq, ?_, ?_, rfl⟩
  · intro p hp
    unfold set_active_profile at hp
    simp only [List.map_map, List.mem_map, Function.comp_apply] at hp
    obtain ⟨q, _, rfl⟩ := hp
    by_cases hid : q.id = pid
    · simp [hid]
    · simp [hid]
  · obtain ⟨p, hp, hpid⟩ := hex
    refine ⟨{ p with isActive := true }, ?_, hpid, rfl⟩
    unfold set_active_profile
    simp only [List.map_map, List.mem_map, Function.comp_apply]
    exact ⟨p, hp, by simp [hpid]⟩
  · intro f hf hnot
    rw [heq]
    have hfind : (db.profileWeights.filter (fun r => decide (r.1 = pid))).find?
        (fun r => decide (r.2.1 = f.name)) = none := by
      apply List.find?_eq_none.mpr
      rintro ⟨a, b, c⟩ hx
      simp only [decide_eq_true_eq]
      intro hb
      obtain ⟨hmem, hfa⟩ := List.mem_filter.mp hx
      have ha : a = pid := by simpa using hfa
      subst ha
      subst hb
      exact hnot c hmem
    refine List.mem_map.mpr ⟨f, hf, ?_⟩
    rw [hfind]
  · intro f hf w hmem
    rw [heq]
    have hmemf : (pid, (f.name, w)) ∈
        db.profileWeights.filter (fun r => decide (r.1 = pid)) :=
      List.mem_filter.mpr ⟨hmem, by simp⟩
    cases hfind : (db.profileWeights.filter (fun r => decide (r.1 = pid))).find?
        (fun r => decide (r.2.1 = f.name)) with
    | none =>
      have hc := List.find?_eq_none.mp hfind _ hmemf
      simp at hc
    | some r' =>
      have hr'mem := List.mem_of_find?_eq_some hfind
      have hr'name : r'.2.1 = f.name := by
        simpa using List.find?_some hfind
      have hinj := List.inj_on_of_nodup_map hw hr'mem hmemf
      have hr'eq : r' = (pid, (f.name, w)) := hinj (by simpa using hr'name)
      refine List.mem_map.mpr ⟨f, hf, ?_⟩
      rw [hfind, hr'eq]

/-- Witness for C7 at a concrete input: activating profile `1` of the
two-profile fixture leaves the profile-weight rows untouched. -/
theorem c7_profile_activation_witness :
    (set_active_profile dbProf 1).profileWeights = dbProf.profileWeights :=
  (c7_profile_activation dbProf 1 ⟨⟨1, "a", "", false⟩, by decide, rfl⟩
    (by decide)).2.2.2.2.2
